import Mathlib

/-!
Verification of the LeoProximityChat real-time voice chat core.

This file gives a shallow embedding of the components of the repository that
the specification's claims talk about, and proves (or refutes) each claim
against that embedding:

* `ThreadSafeQueue.h`  — the bounded drop-oldest FIFO (claims C7, C10);
* `Protocol.h`         — wire framing of incoming audio packets (claim C6);
* `SpatialAudio.cpp`   — distance attenuation and interaural level
  difference of the binaural renderer (claims C1, C3);
* `AudioEngine.cpp`    — voice-activity detection with hysteresis (C2),
  the per-peer playback/mix step and peer lifecycle (C5, C8, C9), and the
  peer-table/roster reaction to peer-left events together with
  `NetworkManager.cpp` and `LeoProximityChat.cpp` (C4).

C++ `float`/`double` arithmetic is idealised as real arithmetic; machine
byte buffers are lists of naturals; wall-clock timestamps are naturals
counting milliseconds.  Each definition is translated directly from the
named source function.
-/

namespace LeoProximityChat

/-! ### ThreadSafeQueue (src/plugin/src/ThreadSafeQueue.h)

The C++ class wraps a `std::queue` (head of our list = front = oldest),
a capacity `maxSize_` and a drop counter `dropped_`.  The mutex and the
condition variable only serialise access; the sequential semantics of the
operations is what we embed here. -/

structure ThreadSafeQueue (α : Type) where
  queue : List α
  maxSize : ℕ
  dropped : ℕ

namespace ThreadSafeQueue

/-- The freshly constructed queue: `ThreadSafeQueue(size_t maxSize)`. -/
def empty (α : Type) (maxSize : ℕ) : ThreadSafeQueue α :=
  ⟨[], maxSize, 0⟩

/-- Embedding of `push`: if the queue is full, the oldest element (the
front) is popped and the drop counter incremented, then the new item is
appended; the function always returns `true`. -/
def push (x : α) (q : ThreadSafeQueue α) : ThreadSafeQueue α × Bool :=
  if q.maxSize ≤ q.queue.length then
    ({ q with queue := q.queue.tail ++ [x], dropped := q.dropped + 1 }, true)
  else
    ({ q with queue := q.queue ++ [x] }, true)

/-- Embedding of `tryPop`: remove and return the front element if any. -/
def tryPop (q : ThreadSafeQueue α) : Option α × ThreadSafeQueue α :=
  match q.queue with
  | [] => (none, q)
  | x :: xs => (some x, { q with queue := xs })

/-- Embedding of `popWait`: in a single-threaded run the wait returns the
front element immediately when the queue is non-empty and times out with
`nullopt` otherwise, so its state effect coincides with `tryPop`. -/
def popWait (q : ThreadSafeQueue α) : Option α × ThreadSafeQueue α :=
  tryPop q

/-- Embedding of `clear`: pop everything; the drop counter is untouched. -/
def clear (q : ThreadSafeQueue α) : ThreadSafeQueue α :=
  { q with queue := [] }

/-- Push a whole list of items, oldest first. -/
def pushAll (xs : List α) (q : ThreadSafeQueue α) : ThreadSafeQueue α :=
  xs.foldl (fun q x => (push x q).1) q

/-- Pop up to `n` items with `tryPop`, collecting the returned values. -/
def popN : ℕ → ThreadSafeQueue α → List α
  | 0, _ => []
  | n + 1, q =>
    match tryPop q with
    | (none, _) => []
    | (some x, q') => x :: popN n q'

/-- One client operation on the queue. -/
inductive Op (α : Type) where
  | push (x : α)
  | tryPop
  | popWait
  | clear

/-- Apply one operation; record the boolean result when the operation was a
push (the C++ `push` is the only operation returning `bool`). -/
def applyOp (q : ThreadSafeQueue α) : Op α → ThreadSafeQueue α × Option Bool
  | .push x => let r := push x q; (r.1, some r.2)
  | .tryPop => ((tryPop q).2, none)
  | .popWait => ((popWait q).2, none)
  | .clear => (clear q, none)

/-- Run a list of operations, collecting every push's returned boolean. -/
def runOps (q : ThreadSafeQueue α) : List (Op α) → ThreadSafeQueue α × List Bool
  | [] => (q, [])
  | op :: ops =>
    let r := applyOp q op
    let rest := runOps r.1 ops
    (rest.1, (r.2.toList) ++ rest.2)

end ThreadSafeQueue

/-! ### Protocol (src/plugin/src/Protocol.h)

Byte buffers are lists of naturals (each byte < 256 at the C++ level; the
parser never depends on that bound).  The three position floats are kept
as their raw 32-bit little-endian words, since no claim inspects their
floating-point value. -/

namespace Protocol

/-- Message type byte in binary packets (named MSG_AUDIO = 0x03 in Protocol.h). -/
def MSG_AUDIO_BYTE : ℕ := 0x03

/-- Incoming header size: type byte + steamId u64 + 3 position floats. -/
def INCOMING_HEADER_SIZE : ℕ := 1 + 8 + 12

/-- Little-endian word read: `memcpy` of the given bytes, least
significant first. -/
def leWord (bytes : List ℕ) : ℕ :=
  bytes.foldr (fun b acc => b + 256 * acc) 0

/-- The parsed `AudioPacket` of `Protocol.h`.  The sender position is kept
as the three raw little-endian 32-bit words. -/
structure AudioPacket where
  senderSteamId : String
  senderPosition : ℕ × ℕ × ℕ
  opusData : List ℕ
  deriving DecidableEq

/-- Embedding of `parseIncomingAudioPacket` applied to a freshly
constructed `AudioPacket`: reject buffers shorter than the header or with
a wrong type byte, otherwise read the steamId, position words and opus
payload.  When the payload length is zero the C++ code leaves the fresh
packet's empty `opusData` untouched, which coincides with `data.drop 21 = []`. -/
def parseIncomingAudioPacket (data : List ℕ) : Option AudioPacket :=
  if data.length < INCOMING_HEADER_SIZE then none
  else if data.headI ≠ MSG_AUDIO_BYTE then none
  else some
    { senderSteamId := toString (leWord ((data.drop 1).take 8))
      senderPosition :=
        (leWord ((data.drop 9).take 4),
         leWord ((data.drop 13).take 4),
         leWord ((data.drop 17).take 4))
      opusData := data.drop INCOMING_HEADER_SIZE }

end Protocol

/-! ### SpatialAudio (src/plugin/src/SpatialAudio.cpp, SpatialAudio.h)

The configuration scalars of the `SpatialAudio` class, its distance
attenuation (`process` step 2) and its interaural-level-difference /
rear-attenuation gain targets (`process` step 3) are embedded directly.
Float arithmetic is idealised as real arithmetic. -/

namespace SpatialAudio

/-- The scalar configuration state of a `SpatialAudio` instance. -/
structure Config where
  enabled : Bool
  innerRadius : ℝ
  outerRadius : ℝ
  rolloff : ℝ
  masterVolume : ℝ

/-- Default member initialisers from SpatialAudio.h (radii come from
`Protocol::DEFAULT_FULL_VOL_DISTANCE` and `Protocol::DEFAULT_MAX_DISTANCE`). -/
noncomputable def Config.default : Config :=
  { enabled := true, innerRadius := 2500, outerRadius := 15000,
    rolloff := 1, masterVolume := 1 }

/-- Embedding of `SpatialAudio::setDistanceParams`: stores the radii and
clamps the rolloff from below at 0.1. -/
noncomputable def setDistanceParams (inner outer rolloff : ℝ) (s : Config) : Config :=
  { s with innerRadius := inner, outerRadius := outer,
           rolloff := max rolloff 0.1 }

/-- Embedding of the distance attenuation of `SpatialAudio::process`
(step 2): 1 inside the inner radius, 0 at or beyond the outer radius, and
in between `max (1 - clamp(ratio)^0.6) 0.04` where
`ratio = (dist - inner) / (outer - inner + 1e-9)`.  Note the stored
rolloff exponent is never read here: the exponent is the literal 0.6. -/
noncomputable def distVolume (s : Config) (distUU : ℝ) : ℝ :=
  if distUU ≤ s.innerRadius then 1
  else if s.outerRadius ≤ distUU then 0
  else
    max (1 - (min (max ((distUU - s.innerRadius) /
        (s.outerRadius - s.innerRadius + 1e-9)) 0) 1) ^ (0.6 : ℝ)) 0.04

/-- The scalar value returned by `SpatialAudio::process`: the master
volume in disabled pass-through mode, otherwise the distance volume (the
early `return 0.0f` for non-positive distance volume returns the same
value as the final `return distVolume`). -/
noncomputable def processVolume (s : Config) (distUU : ℝ) : ℝ :=
  if s.enabled = false then s.masterVolume
  else if distVolume s distUU ≤ 0 then 0
  else distVolume s distUU

/-- Embedding of the interaural level difference factor of
`SpatialAudio::process` (step 3): the far ear is attenuated by at most
60%, proportionally to the sine of the azimuth. -/
noncomputable def ildFactor (azimuth : ℝ) : ℝ := 1 - 0.60 * |Real.sin azimuth|

/-- Left-ear ILD gain target.  The source comments document the azimuth
convention as 0 = front, +π/2 = right, -π/2 = left; for `azimuth >= 0`
the code sets `targetGainL = 1.0` (its own comment: source on right,
INVERTED, left ear louder). -/
noncomputable def ildGainL (azimuth : ℝ) : ℝ :=
  if 0 ≤ azimuth then 1 else ildFactor azimuth

/-- Right-ear ILD gain target: for `azimuth >= 0` the code sets
`targetGainR = ildFactor`. -/
noncomputable def ildGainR (azimuth : ℝ) : ℝ :=
  if 0 ≤ azimuth then ildFactor azimuth else 1

/-- Embedding of the rear attenuation of `SpatialAudio::process`: up to
30% extra attenuation, applied to both ears, for sources behind the
listener. -/
noncomputable def rearFactor (azimuth : ℝ) : ℝ :=
  if Real.pi * 0.5 < |azimuth| then
    1 - ((|azimuth| - Real.pi * 0.5) / (Real.pi * 0.5)) * 0.30
  else 1

/-- Left-ear gain target after rear attenuation, before distance/master
scaling. -/
noncomputable def targetGainL (azimuth : ℝ) : ℝ := ildGainL azimuth * rearFactor azimuth

/-- Right-ear gain target after rear attenuation, before distance/master
scaling. -/
noncomputable def targetGainR (azimuth : ℝ) : ℝ := ildGainR azimuth * rearFactor azimuth

end SpatialAudio

namespace Protocol

/-- Frame duration in milliseconds (`FRAME_DURATION_MS = 20`). -/
def FRAME_DURATION_MS : ℕ := 20

/-- Samples per 20 ms frame at 48 kHz (`FRAME_SIZE = 960`). -/
def FRAME_SIZE : ℕ := 960

end Protocol

/-! ### AudioEngine (src/plugin/src/AudioEngine.cpp, AudioEngine.h)

Voice-activity detection, the per-peer playback drain/mix step, the final
soft saturation, and the peer table / roster bookkeeping.  Wall-clock
timestamps are naturals counting milliseconds (the steady clock is
monotone, so natural subtraction models the elapsed duration). -/

namespace AudioEngine

/-- RMS energy of a frame, as computed at the top of
`AudioEngine::detectVoiceActivity` (and in `processCapturedAudio`):
the square root of the mean of the squared samples. -/
noncomputable def frameRMS (samples : List ℝ) : ℝ :=
  Real.sqrt ((samples.map (fun s => s * s)).sum / samples.length)

/-- Hold time converted to a frame count:
`static_cast<int>(holdMs / FRAME_DURATION_MS)`.  The engine clamps the
stored hold time at 0 from below (`setHoldTimeMs`), so the C++ truncation
toward zero is the floor. -/
noncomputable def vadHoldFrames (holdMs : ℝ) : ℕ :=
  (⌊holdMs / (Protocol.FRAME_DURATION_MS : ℝ)⌋).toNat

/-- Embedding of `AudioEngine::detectVoiceActivity`: returns the decision
together with the updated `holdFramesRemaining_` member.  Voice above the
threshold recharges the hold counter and transmits; below the threshold
the hold counter, while positive, is decremented and transmission
continues; otherwise transmission stops. -/
noncomputable def detectVoiceActivity (threshold holdMs : ℝ)
    (samples : List ℝ) (hold : ℕ) : Bool × ℕ :=
  if threshold < frameRMS samples then (true, vadHoldFrames holdMs)
  else if 0 < hold then (true, hold - 1)
  else (false, 0)

/-- Iterated VAD over a stream of frames, starting from hold state
`hold0`; returns decision and hold state after frame `n`. -/
noncomputable def vadRun (threshold holdMs : ℝ) (frames : ℕ → List ℝ)
    (hold0 : ℕ) : ℕ → Bool × ℕ
  | 0 => detectVoiceActivity threshold holdMs (frames 0) hold0
  | n + 1 =>
    detectVoiceActivity threshold holdMs (frames (n + 1))
      (vadRun threshold holdMs frames hold0 n).2

/-- Number of frames to accumulate before playback per AudioEngine.h
(`PREBUFFER_FRAMES = 3`). -/
def PREBUFFER_FRAMES : ℕ := 3

/-- Prebuffer threshold in stereo samples per AudioEngine.h
(`PREBUFFER_FRAMES * Protocol::FRAME_SIZE * Protocol::CHANNELS_STEREO`). -/
def PREBUFFER_STEREO_SAMPLES : ℕ := PREBUFFER_FRAMES * Protocol.FRAME_SIZE * 2

/-- The fields of `AudioEngine::PeerAudioState` that the playback path
reads or writes, plus the declared-but-never-read `prebuffering` flag.
The jitter buffer holds spatialized stereo samples (the .cpp drains and
appends it with vector insert/erase in FIFO order). -/
structure PeerAudioState where
  jitterBuffer : List ℝ
  plcFrames : ℕ
  lastPacketTime : ℕ
  active : Bool
  prebuffering : Bool

/-- A peer state as built by `getOrCreatePeerState`: empty buffer, no PLC
frames, not yet active, prebuffering flag at its initialiser `true`,
creation time stamped as last packet time. -/
def freshPeerState (now : ℕ) : PeerAudioState :=
  { jitterBuffer := [], plcFrames := 0, lastPacketTime := now,
    active := false, prebuffering := true }

/-- Embedding of the per-packet drain step of
`AudioEngine::processPlaybackAudio` (the `while tryPop` loop body) for the
packet's sender: `decodedStereo` is the spatialized stereo output of a
successful decode (empty for an empty opus payload or a failed decode, in
which case nothing changes).  On success the peer is (re)activated, its
PLC counter reset, its last packet time updated, and the stereo samples
appended to its jitter buffer. -/
def peerIngestPacket (p : PeerAudioState) (now : ℕ)
    (decodedStereo : List ℝ) : PeerAudioState :=
  match decodedStereo with
  | [] => p
  | _ :: _ =>
    { p with jitterBuffer := p.jitterBuffer ++ decodedStereo,
             plcFrames := 0, lastPacketTime := now, active := true }

/-- Embedding of the per-peer mix phase of
`AudioEngine::processPlaybackAudio`: inactive peers are skipped; an
active peer with buffered samples contributes `min available sfc` samples
which are removed from its buffer; with an empty buffer, packet-loss
concealment output `plcOut` is mixed while the elapsed silence is under
500 ms and fewer than 10 consecutive PLC frames were used; silence over
2000 ms marks the peer inactive.  Returns the updated peer state and the
samples additively mixed into the output. -/
def peerMixStep (p : PeerAudioState) (now sfc : ℕ) (plcOut : List ℝ) :
    PeerAudioState × List ℝ :=
  if p.active = false then (p, [])
  else if 0 < min p.jitterBuffer.length sfc then
    ({ p with jitterBuffer := p.jitterBuffer.drop (min p.jitterBuffer.length sfc) },
      p.jitterBuffer.take (min p.jitterBuffer.length sfc))
  else if now - p.lastPacketTime < 500 ∧ p.plcFrames < 10 then
    if plcOut.isEmpty then (p, [])
    else ({ p with plcFrames := p.plcFrames + 1 }, plcOut.take sfc)
  else if 2000 < now - p.lastPacketTime then
    ({ p with active := false }, [])
  else (p, [])

/-- Iterated mix steps over a list of (now, stereo frame count, PLC
output) inputs, collecting each step's contribution. -/
def peerMixRun (p : PeerAudioState) :
    List (ℕ × ℕ × List ℝ) → PeerAudioState × List (List ℝ)
  | [] => (p, [])
  | (now, sfc, plc) :: rest =>
    let r := peerMixStep p now sfc plc
    let rr := peerMixRun r.1 rest
    (rr.1, r.2 :: rr.2)

/-- Additive mix of a contribution into a prefix of the output buffer
(`output[i] += ...` for i below the contribution length). -/
def addInto : List ℝ → List ℝ → List ℝ
  | out, [] => out
  | [], _ => []
  | o :: os, c :: cs => (o + c) :: addInto os cs

/-- The final stereo output of `AudioEngine::processPlaybackAudio`: the
zeroed stereo buffer with every peer's contribution mixed in additively,
then `std::tanh` applied to every sample as the final soft saturation. -/
noncomputable def processPlaybackOutput (frameCount : ℕ)
    (contribs : List (List ℝ)) : List ℝ :=
  (contribs.foldl addInto (List.replicate (frameCount * 2) 0)).map Real.tanh

/-- Embedding of `AudioEngine::getOrCreatePeerState` on the peer table:
return the table unchanged when the sender key exists, otherwise add a
fresh peer state for it. -/
def getOrCreatePeerState (tbl : List (String × PeerAudioState))
    (sid : String) (now : ℕ) : List (String × PeerAudioState) :=
  if tbl.any (fun q => q.1 == sid) then tbl
  else tbl ++ [(sid, freshPeerState now)]

/-- Run the mix phase over the whole peer table; no entry is ever
removed, only the per-peer states change. -/
def mixAllPeers (tbl : List (String × PeerAudioState)) (now sfc : ℕ)
    (plcOut : String → List ℝ) : List (String × PeerAudioState) :=
  tbl.map (fun q => (q.1, (peerMixStep q.2 now sfc (plcOut q.1)).1))

end AudioEngine

/-! ### Combined system state (NetworkManager.cpp + LeoProximityChat.cpp)

The NetworkManager keeps its own roster `peers_` of PeerInfo entries,
distinct from the AudioEngine's peer table of PeerAudioState.  On a
`peer_left` text message the roster entry is erased and the registered
peer-left callback is invoked; the callback installed in
LeoProximityChat.cpp only logs, so the audio pipeline's peer table is not
touched. -/

/-- The two peer-keyed tables of the running plugin: the NetworkManager
roster (steamId, playerName) and the AudioEngine peer table. -/
structure SystemState where
  netPeers : List (String × String)
  audioPeers : List (String × AudioEngine.PeerAudioState)

/-- Embedding of the `peer_left` branch of
`NetworkManager::handleTextMessage` combined with the peer-left callback
installed by `LeoProximityChat::initializeSubsystems` (which only logs):
the roster entry for the steamId is erased; the audio peer table is
unchanged. -/
def handlePeerLeft (s : SystemState) (sid : String) : SystemState :=
  { s with netPeers := s.netPeers.eraseP (fun q => q.1 == sid) }

/-- Embedding of the peer-table clearing in `AudioEngine::shutdown`
(`peers_.clear()`), the only place an audio PeerAudioState is destroyed. -/
def audioShutdownClear (s : SystemState) : SystemState :=
  { s with audioPeers := [] }

end LeoProximityChat

open LeoProximityChat LeoProximityChat.ThreadSafeQueue

/-- A push into a non-full queue appends without dropping. -/
theorem push_fst_queue_of_lt {α : Type} (x : α) (q : ThreadSafeQueue α)
    (h : q.queue.length < q.maxSize) :
    (push x q).1 = { q with queue := q.queue ++ [x] } := by
  simp [push, Nat.not_le.mpr h]

/-- Pushing a list that fits in the remaining capacity appends it. -/
theorem pushAll_of_le {α : Type} (xs : List α) (q : ThreadSafeQueue α)
    (h : q.queue.length + xs.length ≤ q.maxSize) :
    pushAll xs q = { q with queue := q.queue ++ xs } := by
  induction xs generalizing q with
  | nil => simp [pushAll]
  | cons x xs ih =>
    have hx : q.queue.length < q.maxSize := by
      simp at h; omega
    have step : (push x q).1 = { q with queue := q.queue ++ [x] } :=
      push_fst_queue_of_lt x q hx
    have : pushAll (x :: xs) q = pushAll xs (push x q).1 := by
      simp [pushAll]
    rw [this, step, ih]
    · simp
    · simp at h ⊢; omega

/-- Popping n times returns the first n queued elements in FIFO order. -/
theorem popN_eq_take {α : Type} (n : ℕ) (q : ThreadSafeQueue α) :
    popN n q = q.queue.take n := by
  induction n generalizing q with
  | zero => simp [popN]
  | succ n ih =>
    match hq : q.queue with
    | [] => simp [popN, tryPop, hq]
    | x :: xs => simp [popN, tryPop, hq, ih]

/-- C7.  For every capacity c ≥ 1 and every c+1 items, pushing them all
into the initially empty bounded queue leaves exactly c items, increments
the drop counter by exactly 1, the dropped element is the oldest (the
first pushed), and subsequent pops return items 2 through c+1 in FIFO
order. -/
theorem queue_overflow_drops_oldest {α : Type} (c : ℕ) (items : List α)
    (hc : 1 ≤ c) (hlen : items.length = c + 1) :
    (pushAll items (ThreadSafeQueue.empty α c)).queue = items.tail ∧
    (pushAll items (ThreadSafeQueue.empty α c)).queue.length = c ∧
    (pushAll items (ThreadSafeQueue.empty α c)).dropped = 1 ∧
    popN c (pushAll items (ThreadSafeQueue.empty α c)) = items.tail := by
  set final := pushAll items (ThreadSafeQueue.empty α c) with hfinal
  -- split the c+1 items into the first c and the last one
  have hne : items ≠ [] := by
    intro h; rw [h] at hlen; simp at hlen
  obtain ⟨l, a, rfl⟩ : ∃ l a, items = l ++ [a] := by
    refine ⟨items.dropLast, items.getLast hne, ?_⟩
    exact (items.dropLast_append_getLast hne).symm
  have hl : l.length = c := by
    simpa using hlen
  -- pushing the first c items just appends them
  have h1 : pushAll l (ThreadSafeQueue.empty α c) =
      { ThreadSafeQueue.empty α c with queue := l } := by
    rw [pushAll_of_le]
    · simp [ThreadSafeQueue.empty]
    · simp [ThreadSafeQueue.empty, hl]
  -- the final push hits the full queue and drops the front
  have h2 : final = { queue := l.tail ++ [a], maxSize := c, dropped := 1 } := by
    show pushAll (l ++ [a]) (ThreadSafeQueue.empty α c) = _
    have : pushAll (l ++ [a]) (ThreadSafeQueue.empty α c) =
        (push a (pushAll l (ThreadSafeQueue.empty α c))).1 := by
      simp [pushAll]
    rw [this, h1]
    simp [push, ThreadSafeQueue.empty, hl]
  have hlne : l ≠ [] := by
    intro h; rw [h] at hl; simp at hl; omega
  have htail : (l ++ [a]).tail = l.tail ++ [a] := by
    match l, hlne with
    | x :: xs, _ => simp
  have hlen' : (l.tail ++ [a]).length = c := by
    simp [List.length_tail, hl]; omega
  refine ⟨by rw [h2, htail], by rw [h2]; exact hlen', by rw [h2], ?_⟩
  rw [popN_eq_take, h2, htail]
  exact List.take_of_length_le (le_of_eq hlen')

/-- C7 witness: capacity 2, pushing three items keeps the last two, drops
the first, counts one drop, and pops return the survivors in order. -/
theorem queue_overflow_drops_oldest_witness :
    (pushAll [10, 20, 30] (ThreadSafeQueue.empty ℕ 2)).queue = [20, 30] ∧
    (pushAll [10, 20, 30] (ThreadSafeQueue.empty ℕ 2)).queue.length = 2 ∧
    (pushAll [10, 20, 30] (ThreadSafeQueue.empty ℕ 2)).dropped = 1 ∧
    popN 2 (pushAll [10, 20, 30] (ThreadSafeQueue.empty ℕ 2)) = [20, 30] :=
  queue_overflow_drops_oldest 2 [10, 20, 30] (by decide) (by decide)

/-- C10.  For every capacity c ≥ 1 and every sequence of push, tryPop,
popWait and clear operations run from the empty queue, the queue's size
never exceeds c, and every push returned true. -/
theorem queue_size_bounded_and_push_total {α : Type} (c : ℕ) (hc : 1 ≤ c)
    (ops : List (ThreadSafeQueue.Op α)) :
    (runOps (ThreadSafeQueue.empty α c) ops).1.queue.length ≤ c ∧
    (runOps (ThreadSafeQueue.empty α c) ops).1.maxSize = c ∧
    ∀ b ∈ (runOps (ThreadSafeQueue.empty α c) ops).2, b = true := by
  suffices h : ∀ q : ThreadSafeQueue α, q.queue.length ≤ q.maxSize →
      1 ≤ q.maxSize →
      (runOps q ops).1.queue.length ≤ q.maxSize ∧
      (runOps q ops).1.maxSize = q.maxSize ∧
      ∀ b ∈ (runOps q ops).2, b = true by
    simpa [ThreadSafeQueue.empty] using
      h (ThreadSafeQueue.empty α c) (by simp [ThreadSafeQueue.empty])
        (by simpa [ThreadSafeQueue.empty] using hc)
  induction ops with
  | nil => intro q hq hm; exact ⟨hq, rfl, by simp [runOps]⟩
  | cons op ops ih =>
    intro q hq hm
    have hstep : (applyOp q op).1.queue.length ≤ q.maxSize ∧
        (applyOp q op).1.maxSize = q.maxSize := by
      cases op with
      | push x =>
        by_cases hfull : q.maxSize ≤ q.queue.length
        · have hlen : q.queue.length = q.maxSize := le_antisymm hq hfull
          have hne : q.queue ≠ [] := by
            intro h; rw [h] at hlen; simp at hlen; omega
          constructor
          · simp [applyOp, ThreadSafeQueue.push, hfull, List.length_tail, hlen]
            omega
          · simp [applyOp, ThreadSafeQueue.push, hfull]
        · constructor
          · simp [applyOp, ThreadSafeQueue.push, hfull]
            omega
          · simp [applyOp, ThreadSafeQueue.push, hfull]
      | tryPop =>
        match hqq : q.queue with
        | [] => simpa [applyOp, ThreadSafeQueue.tryPop, hqq] using hq
        | x :: xs =>
          constructor
          · simp only [applyOp, ThreadSafeQueue.tryPop, hqq]
            simp only [hqq] at hq; simp at hq ⊢; omega
          · simp [applyOp, ThreadSafeQueue.tryPop, hqq]
      | popWait =>
        match hqq : q.queue with
        | [] =>
          simpa [applyOp, ThreadSafeQueue.popWait, ThreadSafeQueue.tryPop, hqq]
            using hq
        | x :: xs =>
          constructor
          · simp only [applyOp, ThreadSafeQueue.popWait, ThreadSafeQueue.tryPop,
              hqq]
            simp only [hqq] at hq; simp at hq ⊢; omega
          · simp [applyOp, ThreadSafeQueue.popWait, ThreadSafeQueue.tryPop, hqq]
      | clear => simp [applyOp, ThreadSafeQueue.clear]
    have hm' : 1 ≤ (applyOp q op).1.maxSize := by rw [hstep.2]; exact hm
    have hrec := ih (applyOp q op).1 (by rw [hstep.2]; exact hstep.1) hm'
    have hrun : runOps q (op :: ops) =
        ((runOps (applyOp q op).1 ops).1,
          (applyOp q op).2.toList ++ (runOps (applyOp q op).1 ops).2) := by
      simp [runOps]
    refine ⟨?_, ?_, ?_⟩
    · rw [hrun]; rw [hstep.2] at hrec; exact hrec.1
    · rw [hrun]; rw [hstep.2] at hrec; exact hrec.2.1
    · rw [hrun]
      intro b hb
      rcases List.mem_append.mp hb with hb | hb
      · cases op with
        | push x =>
          by_cases hfull : q.maxSize ≤ q.queue.length
          · simp [applyOp, ThreadSafeQueue.push, hfull] at hb; exact hb
          · simp [applyOp, ThreadSafeQueue.push, hfull] at hb; exact hb
        | tryPop => simp [applyOp] at hb
        | popWait => simp [applyOp] at hb
        | clear => simp [applyOp] at hb
      · exact hrec.2.2 b hb

/-- C10 witness: capacity 1, a run with overflow, pops and clear stays
within bound and every push returned true. -/
theorem queue_size_bounded_and_push_total_witness :
    (runOps (ThreadSafeQueue.empty ℕ 1)
      [.push 5, .push 6, .tryPop, .push 7, .clear, .popWait]).1.queue.length ≤ 1 ∧
    (runOps (ThreadSafeQueue.empty ℕ 1)
      [.push 5, .push 6, .tryPop, .push 7, .clear, .popWait]).1.maxSize = 1 ∧
    ∀ b ∈ (runOps (ThreadSafeQueue.empty ℕ 1)
      [.push 5, .push 6, .tryPop, .push 7, .clear, .popWait]).2, b = true :=
  queue_size_bounded_and_push_total 1 (by decide)
    [.push 5, .push 6, .tryPop, .push 7, .clear, .popWait]

open LeoProximityChat.Protocol

/-- C6.  The incoming audio parser succeeds on every 21-byte buffer whose
first byte is the audio type 0x03, yielding a packet with an empty
compressed payload; it fails on every buffer shorter than 21 bytes, and on
every buffer whose first byte is not 0x03. -/
theorem parse_incoming_audio_packet_spec (data : List ℕ) :
    (data.length = 21 → data.headI = MSG_AUDIO_BYTE →
      ∃ pkt, parseIncomingAudioPacket data = some pkt ∧ pkt.opusData = []) ∧
    (data.length < 21 → parseIncomingAudioPacket data = none) ∧
    (data.headI ≠ MSG_AUDIO_BYTE → parseIncomingAudioPacket data = none) := by
  refine ⟨?_, ?_, ?_⟩
  · intro hlen htype
    refine ⟨{ senderSteamId := toString (leWord ((data.drop 1).take 8)),
              senderPosition := (leWord ((data.drop 9).take 4),
                leWord ((data.drop 13).take 4), leWord ((data.drop 17).take 4)),
              opusData := data.drop INCOMING_HEADER_SIZE }, ?_, ?_⟩
    · simp [parseIncomingAudioPacket, INCOMING_HEADER_SIZE, hlen, htype]
    · show data.drop INCOMING_HEADER_SIZE = []
      exact List.drop_eq_nil_of_le (by simp [hlen, INCOMING_HEADER_SIZE])
  · intro hlen
    simp [parseIncomingAudioPacket, INCOMING_HEADER_SIZE]
    omega
  · intro htype
    by_cases hlen : data.length < INCOMING_HEADER_SIZE
    · simp [parseIncomingAudioPacket, hlen]
    · simp [parseIncomingAudioPacket, hlen, htype]

/-- C6 witness: the concrete 21-byte buffer 0x03 followed by twenty zero
bytes parses to a packet with empty payload, a 20-byte buffer fails, and a
21-byte buffer with type byte 0x02 fails. -/
theorem parse_incoming_audio_packet_spec_witness :
    (∃ pkt, parseIncomingAudioPacket (3 :: List.replicate 20 0) = some pkt ∧
      pkt.opusData = []) ∧
    parseIncomingAudioPacket (List.replicate 20 0) = none ∧
    parseIncomingAudioPacket (2 :: List.replicate 20 0) = none :=
  ⟨(parse_incoming_audio_packet_spec (3 :: List.replicate 20 0)).1
      (by simp) (by simp [MSG_AUDIO_BYTE]),
   (parse_incoming_audio_packet_spec (List.replicate 20 0)).2.1 (by simp),
   (parse_incoming_audio_packet_spec (2 :: List.replicate 20 0)).2.2
      (by simp [MSG_AUDIO_BYTE])⟩

open LeoProximityChat.SpatialAudio

/-- C3.  With spatialization enabled, after configuring any radii
inner < outer and any rolloff > 0 via setDistanceParams, the volume
returned by SpatialAudio::process is 1 at distance ≤ innerRadius, 0 at
distance ≥ outerRadius, and monotonically non-increasing in the distance
strictly between the two radii. -/
theorem distance_attenuation_spec (inner outer rolloff : ℝ) (s0 : Config)
    (hen : s0.enabled = true) (hro : 0 < rolloff) (hio : inner < outer) :
    (∀ dist, dist ≤ inner →
      processVolume (setDistanceParams inner outer rolloff s0) dist = 1) ∧
    (∀ dist, outer ≤ dist →
      processVolume (setDistanceParams inner outer rolloff s0) dist = 0) ∧
    (∀ d1 d2, inner < d1 → d1 ≤ d2 → d2 < outer →
      processVolume (setDistanceParams inner outer rolloff s0) d2 ≤
        processVolume (setDistanceParams inner outer rolloff s0) d1) := by
  set s := setDistanceParams inner outer rolloff s0 with hs
  have hsi : s.innerRadius = inner := rfl
  have hso : s.outerRadius = outer := rfl
  have hse : s.enabled = true := hen
  refine ⟨?_, ?_, ?_⟩
  · intro dist hd
    have h1 : distVolume s dist = 1 := by
      unfold distVolume
      rw [hsi, hso, if_pos hd]
    unfold processVolume
    rw [if_neg (by simp [hse]), h1, if_neg (by norm_num)]
  · intro dist hd
    have hni : ¬ dist ≤ s.innerRadius := by rw [hsi]; linarith
    have h0 : distVolume s dist = 0 := by
      unfold distVolume
      rw [if_neg hni, if_pos (by rw [hso]; exact hd)]
    unfold processVolume
    rw [if_neg (by simp [hse]), h0, if_pos le_rfl]
  · intro d1 d2 hd1 hd12 hd2
    have hD : (0:ℝ) < outer - inner + 1e-9 := by
      have h9 : (0:ℝ) < 1e-9 := by norm_num
      linarith
    have hmid : ∀ d, inner < d → d < outer → processVolume s d =
        max (1 - (min (max ((d - inner) / (outer - inner + 1e-9)) 0) 1) ^
          (0.6 : ℝ)) 0.04 := by
      intro d hda hdb
      have hni : ¬ d ≤ s.innerRadius := by rw [hsi]; linarith
      have hno : ¬ s.outerRadius ≤ d := by rw [hso]; linarith
      have hdv : distVolume s d =
          max (1 - (min (max ((d - inner) / (outer - inner + 1e-9)) 0) 1) ^
            (0.6 : ℝ)) 0.04 := by
        unfold distVolume
        rw [if_neg hni, if_neg hno, hsi, hso]
      have hpos : (0:ℝ) < distVolume s d := by
        rw [hdv]
        have : (0.04:ℝ) ≤ max (1 - (min (max ((d - inner) /
            (outer - inner + 1e-9)) 0) 1) ^ (0.6 : ℝ)) 0.04 :=
          le_max_right _ _
        linarith
      unfold processVolume
      rw [if_neg (by simp [hse]), if_neg (not_le.mpr hpos), hdv]
    rw [hmid d1 hd1 (lt_of_le_of_lt hd12 hd2),
        hmid d2 (lt_of_lt_of_le hd1 hd12) hd2]
    have hr : (d1 - inner) / (outer - inner + 1e-9) ≤
        (d2 - inner) / (outer - inner + 1e-9) :=
      (div_le_div_right hD).mpr (by linarith)
    have hc : min (max ((d1 - inner) / (outer - inner + 1e-9)) 0) 1 ≤
        min (max ((d2 - inner) / (outer - inner + 1e-9)) 0) 1 :=
      min_le_min (max_le_max hr le_rfl) le_rfl
    have hc0 : 0 ≤ min (max ((d1 - inner) / (outer - inner + 1e-9)) 0) 1 :=
      le_min (le_max_right _ _) zero_le_one
    have hp : (min (max ((d1 - inner) / (outer - inner + 1e-9)) 0) 1) ^
        (0.6 : ℝ) ≤
        (min (max ((d2 - inner) / (outer - inner + 1e-9)) 0) 1) ^ (0.6 : ℝ) :=
      Real.rpow_le_rpow hc0 hc (by norm_num)
    exact max_le_max (by linarith) le_rfl

/-- C3 witness: radii 1 < 2, rolloff 1 on the default config; the applied
volume is 1 at distance 1 and 0 at distance 2. -/
theorem distance_attenuation_spec_witness :
    processVolume (setDistanceParams 1 2 1 Config.default) 1 = 1 ∧
    processVolume (setDistanceParams 1 2 1 Config.default) 2 = 0 := by
  have h := distance_attenuation_spec 1 2 1 Config.default rfl
    (by norm_num) (by norm_num)
  exact ⟨h.1 1 le_rfl, h.2.1 2 le_rfl⟩

/-- C1 counterexample.  Under the azimuth convention documented in
SpatialAudio.cpp (comment at the azimuth computation: 0 = front,
+π/2 = right, -π/2 = left), a source directly to the listener's right has
azimuth π/2; the claim says the right-ear gain is then 1, but the code
(its own comment: INVERTED) assigns the right ear the attenuated ILD
factor 1 - 0.60·|sin(π/2)| = 2/5 and gives the LEFT ear gain 1. -/
theorem ild_right_ear_counterexample :
    ildGainR (Real.pi / 2) = 2/5 ∧ ildGainL (Real.pi / 2) = 1 ∧
    ((2:ℝ)/5) ≠ 1 := by
  have h0 : (0:ℝ) ≤ Real.pi / 2 := by positivity
  refine ⟨?_, ?_, by norm_num⟩
  · rw [ildGainR, if_pos h0, ildFactor, Real.sin_pi_div_two]
    norm_num
  · rw [ildGainL, if_pos h0]

/-- C1 amended.  For every azimuth in [-π, π], one ear's gain target is
exactly 1 while the other ear's is 1 - 0.60·|sin azimuth|, which lies in
[2/5, 1] (bounded maximum attenuation of 60%); however, relative to the
azimuth convention documented in the code (positive azimuth = source on
the listener's right), the assignment is swapped: for azimuth ≥ 0 the
LEFT ear receives full gain and the RIGHT ear the attenuated factor, and
symmetrically for azimuth < 0.  Both ears are additionally scaled by a
common rear factor lying in [7/10, 1] before distance/master scaling. -/
theorem ild_gains_amended (az : ℝ) (h1 : -Real.pi ≤ az) (h2 : az ≤ Real.pi) :
    (0 ≤ az → ildGainL az = 1 ∧ ildGainR az = 1 - 0.60 * |Real.sin az|) ∧
    (az < 0 → ildGainR az = 1 ∧ ildGainL az = 1 - 0.60 * |Real.sin az|) ∧
    2/5 ≤ 1 - 0.60 * |Real.sin az| ∧ 1 - 0.60 * |Real.sin az| ≤ 1 ∧
    7/10 ≤ rearFactor az ∧ rearFactor az ≤ 1 ∧
    targetGainL az = ildGainL az * rearFactor az ∧
    targetGainR az = ildGainR az * rearFactor az := by
  have hs1 : |Real.sin az| ≤ 1 :=
    abs_le.mpr ⟨Real.neg_one_le_sin az, Real.sin_le_one az⟩
  have hs0 : 0 ≤ |Real.sin az| := abs_nonneg _
  refine ⟨?_, ?_, by linarith, by linarith, ?_, ?_, rfl, rfl⟩
  · intro h
    exact ⟨by rw [ildGainL, if_pos h], by rw [ildGainR, if_pos h, ildFactor]⟩
  · intro h
    exact ⟨by rw [ildGainR, if_neg (not_le.mpr h)],
           by rw [ildGainL, if_neg (not_le.mpr h), ildFactor]⟩
  · rw [rearFactor]
    by_cases hb : Real.pi * 0.5 < |az|
    · rw [if_pos hb]
      have hpi : 0 < Real.pi := Real.pi_pos
      have haz : |az| ≤ Real.pi := abs_le.mpr ⟨by linarith, h2⟩
      have hden : (0:ℝ) < Real.pi * 0.5 := by linarith
      have hrn : (|az| - Real.pi * 0.5) / (Real.pi * 0.5) ≤ 1 := by
        rw [div_le_one hden]; linarith
      linarith
    · rw [if_neg hb]; norm_num
  · rw [rearFactor]
    by_cases hb : Real.pi * 0.5 < |az|
    · rw [if_pos hb]
      have hden : (0:ℝ) < Real.pi * 0.5 := by linarith [Real.pi_pos]
      have h0 : 0 ≤ (|az| - Real.pi * 0.5) / (Real.pi * 0.5) := by
        apply div_nonneg <;> linarith
      linarith
    · rw [if_neg hb]

/-- C1 amended witness: at azimuth π/2 (right, per the documented
convention) the left ear receives gain 1, the right ear the attenuated
factor, and the rear factor is at least 7/10. -/
theorem ild_gains_amended_witness :
    ildGainL (Real.pi / 2) = 1 ∧
    ildGainR (Real.pi / 2) = 1 - 0.60 * |Real.sin (Real.pi / 2)| ∧
    7/10 ≤ rearFactor (Real.pi / 2) := by
  have h := ild_gains_amended (Real.pi / 2)
    (by linarith [Real.pi_pos]) (by linarith [Real.pi_pos])
  have hp : (0:ℝ) ≤ Real.pi / 2 := by positivity
  exact ⟨(h.1 hp).1, (h.1 hp).2, h.2.2.2.2.1⟩

open LeoProximityChat.AudioEngine

/-- The iterated VAD at frame 0 processes frame 0 from the initial hold
state. -/
theorem vadRun_zero (t h : ℝ) (f : ℕ → List ℝ) (h0 : ℕ) :
    vadRun t h f h0 0 = detectVoiceActivity t h (f 0) h0 := rfl

/-- The iterated VAD at frame n+1 processes frame n+1 from the hold state
left by frame n. -/
theorem vadRun_succ (t h : ℝ) (f : ℕ → List ℝ) (h0 n : ℕ) :
    vadRun t h f h0 (n + 1) =
      detectVoiceActivity t h (f (n + 1)) (vadRun t h f h0 n).2 := rfl

/-- A frame above the threshold transmits and recharges the hold counter. -/
theorem detectVoiceActivity_of_hot (t h : ℝ) (s : List ℝ) (hold : ℕ)
    (hs : t < frameRMS s) :
    detectVoiceActivity t h s hold = (true, vadHoldFrames h) := by
  rw [detectVoiceActivity, if_pos hs]

/-- A frame at or below the threshold transmits while draining a positive
hold counter and stops once the counter is exhausted. -/
theorem detectVoiceActivity_of_cold (t h : ℝ) (s : List ℝ) (hold : ℕ)
    (hs : frameRMS s ≤ t) :
    detectVoiceActivity t h s hold =
      if 0 < hold then (true, hold - 1) else (false, 0) := by
  rw [detectVoiceActivity, if_neg (not_lt.mpr hs)]

/-- C2.  With VAD in use, after a frame whose RMS exceeds the threshold,
if every following frame stays at or below the threshold then
detectVoiceActivity keeps returning true for exactly
floor(holdTimeMs / frameDurationMs) further frames and returns false for
every frame after that, from any prior hold state. -/
theorem vad_hysteresis (threshold holdMs : ℝ) (frames : ℕ → List ℝ)
    (hold0 : ℕ) (hms : 0 ≤ holdMs)
    (hup : threshold < frameRMS (frames 0))
    (hdown : ∀ k, 1 ≤ k → frameRMS (frames k) ≤ threshold) :
    (vadRun threshold holdMs frames hold0 0).1 = true ∧
    ((vadHoldFrames holdMs : ℤ) = ⌊holdMs / (Protocol.FRAME_DURATION_MS : ℝ)⌋) ∧
    (∀ k, 1 ≤ k →
      ((vadRun threshold holdMs frames hold0 k).1 = true ↔
        k ≤ vadHoldFrames holdMs)) := by
  have h0 : vadRun threshold holdMs frames hold0 0 =
      (true, vadHoldFrames holdMs) := by
    rw [vadRun_zero, detectVoiceActivity_of_hot _ _ _ _ hup]
  have key : ∀ k, 1 ≤ k →
      (vadRun threshold holdMs frames hold0 k).2 = vadHoldFrames holdMs - k ∧
      ((vadRun threshold holdMs frames hold0 k).1 = true ↔
        k ≤ vadHoldFrames holdMs) := by
    intro k hk
    induction k with
    | zero => omega
    | succ n ih =>
      have hprev : (vadRun threshold holdMs frames hold0 n).2 =
          vadHoldFrames holdMs - n := by
        by_cases hn : 1 ≤ n
        · exact (ih hn).1
        · have hn0 : n = 0 := by omega
          subst hn0
          rw [h0]
          simp
      have hrw : vadRun threshold holdMs frames hold0 (n + 1) =
          if 0 < vadHoldFrames holdMs - n
          then (true, vadHoldFrames holdMs - n - 1) else (false, 0) := by
        rw [vadRun_succ, hprev,
          detectVoiceActivity_of_cold _ _ _ _ (hdown (n + 1) (by omega))]
      by_cases hh : 0 < vadHoldFrames holdMs - n
      · rw [hrw, if_pos hh]
        refine ⟨by omega, by simp; omega⟩
      · rw [hrw, if_neg hh]
        refine ⟨by omega, by simp; omega⟩
  refine ⟨by rw [h0], ?_, fun k hk => (key k hk).2⟩
  exact Int.toNat_of_nonneg
    (Int.floor_nonneg.mpr (div_nonneg hms (by norm_num)))

/-- C2 witness: threshold 1, hold 40 ms (2 frames), one loud frame then
silence: frames 1 and 2 still transmit, frame 3 does not. -/
theorem vad_hysteresis_witness :
    (vadRun 1 40 (fun k => if k = 0 then [2] else []) 0 2).1 = true ∧
    (vadRun 1 40 (fun k => if k = 0 then [2] else []) 0 3).1 = false := by
  have hup : (1:ℝ) < frameRMS ((fun k => if k = 0 then [2] else []) 0) := by
    show (1:ℝ) < frameRMS [2]
    have h4 : frameRMS [2] = Real.sqrt 4 := by
      unfold frameRMS
      norm_num
    rw [h4]
    rw [Real.lt_sqrt (by norm_num)]
    norm_num
  have hdown : ∀ k, 1 ≤ k →
      frameRMS ((fun k => if k = 0 then ([2]:List ℝ) else []) k) ≤ 1 := by
    intro k hk
    have : (fun k => if k = 0 then ([2]:List ℝ) else []) k = [] := by
      simp; omega
    rw [this]
    unfold frameRMS
    norm_num
  have h := vad_hysteresis 1 40 (fun k => if k = 0 then [2] else []) 0
    (by norm_num) hup hdown
  have h2 : vadHoldFrames 40 = 2 := by
    unfold vadHoldFrames Protocol.FRAME_DURATION_MS
    rw [show (40:ℝ) / ((20:ℕ):ℝ) = 2 by norm_num]
    rw [show ((2:ℝ)) = ((2:ℤ):ℝ) by norm_num, Int.floor_intCast]
    rfl
  constructor
  · exact (h.2.2 2 (by norm_num)).mpr (by omega)
  · have h3 := h.2.2 3 (by norm_num)
    rw [h2] at h3
    simp at h3
    exact h3

/-- An inactive peer is skipped by the mix step: no contribution, no state
change. -/
theorem peerMixStep_inactive (p : PeerAudioState) (now sfc : ℕ)
    (plcOut : List ℝ) (h : p.active = false) :
    peerMixStep p now sfc plcOut = (p, []) := by
  rw [peerMixStep, if_pos h]

/-- C5.  Peer lifecycle: a playback callback finding an active peer with a
drained jitter buffer and more than 2000 ms of silence marks it inactive
with no contribution; an inactive peer contributes nothing to any number
of subsequent mix steps and its state never changes; a successfully
decoded packet reactivates the peer, and the very next mix step with a
positive output period mixes its samples again. -/
theorem peer_lifecycle_spec (p : PeerAudioState) (now sfc : ℕ)
    (plcOut : List ℝ) :
    (p.active = true → p.jitterBuffer = [] → 2000 < now - p.lastPacketTime →
      peerMixStep p now sfc plcOut = ({ p with active := false }, [])) ∧
    (p.active = false →
      ∀ steps : List (ℕ × ℕ × List ℝ),
        (peerMixRun p steps).1 = p ∧
        ∀ contrib ∈ (peerMixRun p steps).2, contrib = ([] : List ℝ)) ∧
    (∀ decodedStereo : List ℝ, decodedStereo ≠ [] →
      (peerIngestPacket p now decodedStereo).active = true ∧
      (0 < sfc →
        (peerMixStep (peerIngestPacket p now decodedStereo) now sfc
          plcOut).2 ≠ [])) := by
  refine ⟨?_, ?_, ?_⟩
  · intro hact hbuf helapsed
    rw [peerMixStep, if_neg (by rw [hact]; simp), hbuf]
    rw [if_neg (by simp)]
    rw [if_neg (by omega)]
    rw [if_pos helapsed]
  · intro hact
    intro steps
    induction steps with
    | nil => exact ⟨rfl, by simp [peerMixRun]⟩
    | cons s rest ih =>
      obtain ⟨n, f, pl⟩ := s
      have hstep : peerMixStep p n f pl = (p, []) :=
        peerMixStep_inactive p n f pl hact
      constructor
      · show (peerMixRun (peerMixStep p n f pl).1 rest).1 = p
        rw [hstep]
        exact ih.1
      · intro contrib hc
        have : (peerMixRun p ((n, f, pl) :: rest)).2 =
            (peerMixStep p n f pl).2 :: (peerMixRun (peerMixStep p n f pl).1 rest).2 := rfl
        rw [this, hstep] at hc
        rcases List.mem_cons.mp hc with hc | hc
        · exact hc
        · exact ih.2 contrib hc
  · intro d hd
    match d, hd with
    | x :: xs, _ =>
      have hing : peerIngestPacket p now (x :: xs) =
          { p with jitterBuffer := p.jitterBuffer ++ x :: xs,
                   plcFrames := 0, lastPacketTime := now, active := true } := rfl
      refine ⟨by rw [hing], ?_⟩
      intro hsfc
      rw [hing]
      set p' : PeerAudioState :=
        { p with jitterBuffer := p.jitterBuffer ++ x :: xs,
                 plcFrames := 0, lastPacketTime := now, active := true } with hp'
      have hlen : 0 < p'.jitterBuffer.length := by
        rw [hp']
        simp
      have htr : 0 < min p'.jitterBuffer.length sfc := lt_min hlen hsfc
      rw [peerMixStep, if_neg (by rw [hp']; simp), if_pos htr]
      intro hcontra
      rcases List.take_eq_nil_iff.mp hcontra with h | h
      · omega
      · rw [hp'] at h
        simp at h

/-- C5 witness: an active peer with empty buffer silent for 2001 ms is
deactivated with empty contribution; an inactive fresh peer contributes
nothing over two further callbacks; ingesting one decoded sample
reactivates and the next mix step's contribution is nonempty. -/
theorem peer_lifecycle_spec_witness :
    peerMixStep ⟨[], 0, 0, true, true⟩ 2001 1920 [] =
      (⟨[], 0, 0, false, true⟩, []) ∧
    (peerMixRun (freshPeerState 0) [(100, 1920, []), (200, 1920, [])]).1 =
      freshPeerState 0 ∧
    (peerIngestPacket (freshPeerState 0) 0 [1]).active = true ∧
    (peerMixStep (peerIngestPacket (freshPeerState 0) 0 [1]) 0 1920 []).2 ≠ [] := by
  have h1 := (peer_lifecycle_spec ⟨[], 0, 0, true, true⟩ 2001 1920 []).1
    rfl rfl (by norm_num)
  have h2 := (peer_lifecycle_spec (freshPeerState 0) 0 1920 []).2.1
    rfl [(100, 1920, []), (200, 1920, [])]
  have h3 := (peer_lifecycle_spec (freshPeerState 0) 0 1920 []).2.2
    [1] (by simp)
  exact ⟨h1, h2.1, h3.1, h3.2 (by norm_num)⟩

/-- The C++ std::tanh is strictly below 1 everywhere. -/
theorem real_tanh_lt_one (x : ℝ) : Real.tanh x < 1 := by
  rw [Real.tanh_eq_sinh_div_cosh, div_lt_one (Real.cosh_pos x)]
  exact Real.sinh_lt_cosh x

/-- The C++ std::tanh is strictly above -1 everywhere. -/
theorem neg_one_lt_real_tanh (x : ℝ) : -1 < Real.tanh x := by
  have h := real_tanh_lt_one (-x)
  rw [Real.tanh_neg] at h
  linarith

/-- C8.  Every sample of the final stereo output buffer of the playback
mixing routine lies strictly within (-1, 1), for any number of additively
mixed peer contributions, because tanh is applied across the whole mixed
buffer as the final step. -/
theorem mix_output_soft_saturated (frameCount : ℕ)
    (contribs : List (List ℝ)) :
    ∀ y ∈ processPlaybackOutput frameCount contribs, -1 < y ∧ y < 1 := by
  intro y hy
  unfold processPlaybackOutput at hy
  obtain ⟨x, _, rfl⟩ := List.mem_map.mp hy
  exact ⟨neg_one_lt_real_tanh x, real_tanh_lt_one x⟩

/-- C8 witness: the output with no peers over one stereo frame contains
the sample tanh 0, which lies strictly within (-1, 1). -/
theorem mix_output_soft_saturated_witness :
    -1 < Real.tanh 0 ∧ Real.tanh 0 < 1 :=
  mix_output_soft_saturated 1 []
    (Real.tanh 0) (by simp [processPlaybackOutput])

/-- C9.  Prebuffering is never enforced: the mix and ingest steps give
results independent of the prebuffering flag (it is only carried along,
never read or written), and for a freshly created peer whose first
decoded packet put fewer samples in the jitter buffer than
PREBUFFER_STEREO_SAMPLES, the very next playback mix step already
consumes and mixes those samples instead of waiting for any minimum
buffered duration. -/
theorem prebuffering_never_enforced (p : PeerAudioState) (b : Bool)
    (now sfc : ℕ) (plcOut decodedStereo : List ℝ) :
    (peerMixStep { p with prebuffering := b } now sfc plcOut =
      ({ (peerMixStep p now sfc plcOut).1 with prebuffering := b },
       (peerMixStep p now sfc plcOut).2)) ∧
    (peerIngestPacket { p with prebuffering := b } now decodedStereo =
      { peerIngestPacket p now decodedStereo with prebuffering := b }) ∧
    (decodedStereo ≠ [] → decodedStereo.length < PREBUFFER_STEREO_SAMPLES →
      0 < sfc →
      (peerMixStep (peerIngestPacket (freshPeerState now) now decodedStereo)
        now sfc plcOut).2 =
        decodedStereo.take (min decodedStereo.length sfc) ∧
      (peerMixStep (peerIngestPacket (freshPeerState now) now decodedStereo)
        now sfc plcOut).2 ≠ []) := by
  obtain ⟨jb, plc, lpt, act, pre⟩ := p
  refine ⟨?_, ?_, ?_⟩
  · unfold peerMixStep
    dsimp only
    split_ifs <;> rfl
  · cases decodedStereo <;> rfl
  · intro hd hlen hsfc
    match decodedStereo, hd with
    | x :: xs, _ =>
      have hing : peerIngestPacket (freshPeerState now) now (x :: xs) =
          ⟨x :: xs, 0, now, true, true⟩ := rfl
      rw [hing]
      have htr : 0 < min (x :: xs).length sfc :=
        lt_min (by simp) hsfc
      have hsteps : peerMixStep (⟨x :: xs, 0, now, true, true⟩ :
          PeerAudioState) now sfc plcOut =
          (⟨(x :: xs).drop (min (x :: xs).length sfc), 0, now, true, true⟩,
            (x :: xs).take (min (x :: xs).length sfc)) := by
        unfold peerMixStep
        dsimp only
        rw [if_neg (by simp), if_pos htr]
      rw [hsteps]
      refine ⟨rfl, ?_⟩
      intro hcontra
      rcases List.take_eq_nil_iff.mp hcontra with h | h
      · omega
      · simp at h

/-- C9 witness: a single-sample first packet (far below the 5760-sample
prebuffer threshold) is mixed by the immediately following mix step. -/
theorem prebuffering_never_enforced_witness :
    (peerMixStep (peerIngestPacket (freshPeerState 0) 0 [1]) 0 1920 []).2 =
      [1].take (min ([1]:List ℝ).length 1920) ∧
    (peerMixStep (peerIngestPacket (freshPeerState 0) 0 [1]) 0 1920 []).2 ≠ [] := by
  have h := (prebuffering_never_enforced (freshPeerState 0) true 0 1920 [] [1]).2.2
    (by simp) (by norm_num [PREBUFFER_STEREO_SAMPLES, PREBUFFER_FRAMES,
      Protocol.FRAME_SIZE]) (by norm_num)
  exact h

/-- C4 counterexample.  In a state where the audio pipeline's peer table
holds a PeerAudioState for identity "1" and the network roster knows the
same identity, processing a peer-left event for "1" erases the roster
entry but leaves the pipeline's peer table entirely unchanged (the
installed peer-left callback only logs), so the PeerState is NOT removed
from the pipeline's peer table. -/
theorem peer_left_keeps_pipeline_state_counterexample :
    (handlePeerLeft ⟨[("1", "alice")], [("1", AudioEngine.freshPeerState 0)]⟩
      "1").audioPeers = [("1", AudioEngine.freshPeerState 0)] ∧
    ("1", AudioEngine.freshPeerState 0) ∈
      (handlePeerLeft ⟨[("1", "alice")], [("1", AudioEngine.freshPeerState 0)]⟩
        "1").audioPeers ∧
    (handlePeerLeft ⟨[("1", "alice")], [("1", AudioEngine.freshPeerState 0)]⟩
      "1").netPeers = [] := by
  refine ⟨rfl, ?_, ?_⟩
  · show ("1", AudioEngine.freshPeerState 0) ∈
      [("1", AudioEngine.freshPeerState 0)]
    simp
  · show ([("1", "alice")].eraseP (fun q => q.1 == "1")) = []
    rfl

/-- C4 amended.  A peer-left event removes the identity from the
NetworkManager roster only: the audio pipeline's peer table is unchanged
by it.  Pipeline PeerStates are never destroyed by any per-peer
operation — packet ingestion only (lazily) adds entries and the mix phase
only updates states in place (marking peers inactive after the silence
timeout) — and are destroyed only wholesale by the shutdown clear. -/
theorem peer_left_keeps_pipeline_state (s : SystemState) (sid sid' : String)
    (now sfc : ℕ) (plcOut : String → List ℝ) :
    (handlePeerLeft s sid).audioPeers = s.audioPeers ∧
    (∀ q, q ∈ (handlePeerLeft s sid).netPeers → q ∈ s.netPeers) ∧
    (∀ k, k ∈ s.audioPeers.map Prod.fst →
      k ∈ (AudioEngine.getOrCreatePeerState s.audioPeers sid' now).map
        Prod.fst) ∧
    ((AudioEngine.mixAllPeers s.audioPeers now sfc plcOut).map Prod.fst =
      s.audioPeers.map Prod.fst) ∧
    (audioShutdownClear s).audioPeers = [] := by
  refine ⟨rfl, ?_, ?_, ?_, rfl⟩
  · intro q hq
    exact List.mem_of_mem_eraseP hq
  · intro k hk
    unfold AudioEngine.getOrCreatePeerState
    by_cases h : s.audioPeers.any (fun q => q.1 == sid')
    · rw [if_pos h]
      exact hk
    · rw [if_neg h, List.map_append]
      exact List.mem_append_left _ hk
  · unfold AudioEngine.mixAllPeers
    rw [List.map_map]
    rfl

/-- C4 amended witness: with identity "1" in both tables, the peer-left
event keeps the pipeline entry, and the key "1" survives a lazy
peer-table lookup for another identity. -/
theorem peer_left_keeps_pipeline_state_witness :
    (handlePeerLeft ⟨[("1", "alice")], [("1", AudioEngine.freshPeerState 0)]⟩
      "1").audioPeers = [("1", AudioEngine.freshPeerState 0)] ∧
    "1" ∈ (AudioEngine.getOrCreatePeerState
      [("1", AudioEngine.freshPeerState 0)] "2" 5).map Prod.fst := by
  have h := peer_left_keeps_pipeline_state
    ⟨[("1", "alice")], [("1", AudioEngine.freshPeerState 0)]⟩ "1" "2" 5 0
    (fun _ => [])
  exact ⟨h.1, h.2.2.1 "1" (by simp)⟩
